import Mathlib

/-!
Shallow embedding of the bridging engine of `src/src/bridge.rs` (an
IRC-to-Matrix protocol bridge): the per-room buffering state machine
(`Room`), the event deduplicator (`seen_events`), the remote-event handler
(`Bridge::handle_matrix`) and the client command loop
(`Bridge::handle_client`).

Rust `Vec<T>` becomes `List T` (with `push` appending at the end and `pop`
removing the last element), `Option<T>` becomes `Option T`, and the
`HashMap<RoomID, Room>` becomes an association list.  Code paths that panic
in Rust (`unreachable!`, out-of-bounds indexing, `.unwrap()` / `.expect` on
missing values) are modelled as `Except.error` with a tag naming the panic
site; diverging loops are cut off by fuel and tagged `loopFuel`.
Transport-level I/O failures (writes to the client socket) are outside the
model: outbound IRC messages are collected into a list instead of being
written, and remote-service calls are oracles passed as parameters.
-/

namespace Pto

/-- Opaque remote-service room identifier (`matrix::model::RoomID`). -/
abbrev RoomID := String

/-- Opaque remote-service event identifier (`matrix::model::EventID`). -/
abbrev EventID := String

/-- `matrix::model::UserID`: the fields `bridge.rs` reads from it. -/
structure UserID where
  nickname : String
  homeserver : String
deriving DecidableEq, Repr

/-- Membership actions distinguished by `Room::handle_with_alias`:
`Join`, `Leave`, and the catch-all for every other action. -/
inductive MembershipAction where
  | Join
  | Leave
  | Other
deriving DecidableEq, Repr

/-- `matrix::events::RoomEvent`, with exactly the variants `bridge.rs`
matches on. -/
inductive RoomEvent where
  | Membership (user : UserID) (action : MembershipAction)
  | Message (user : UserID) (text : String)
  | Topic (user : UserID) (topic : String)
  | CanonicalAlias (name : String)
  | JoinRules (rules : String)
  | Create
  | Aliases (aliases : List String)
  | PowerLevels
  | HistoryVisibility (v : String)
  | Name (a b : String)
  | Avatar (a b : String)
  | Unknown (ty : String) (raw : String)
deriving DecidableEq, Repr

/-- IRC command tags (`irc::protocol::Command`) used by the bridge. -/
inductive Command where
  | Pass
  | Nick
  | User
  | Join
  | Part
  | Ping
  | Pong
  | Quit
  | Privmsg
  | Topic
  | Other
deriving DecidableEq, Repr

/-- `irc::protocol::Message`.  The source fields named after Lean keywords
are renamed: `pfx` embeds `prefix`, `sfx` embeds `suffix`. -/
structure Message where
  pfx : Option String
  command : Command
  args : List String
  sfx : Option String
deriving DecidableEq, Repr

/-- Panic sites of the embedded code (a Rust panic aborts the process). -/
inductive Panic where
  | unreachableAlias
  | indexEmpty
  | loopFuel
  | unwrapNone
deriving DecidableEq, Repr

/-- The `Room` struct of `bridge.rs`. -/
structure Room where
  id : RoomID
  canonical_alias : Option String
  join_rules : Option String
  members : List UserID
  pending_events : List RoomEvent
deriving DecidableEq, Repr

/-- `Room::new`. -/
def Room.new (id : RoomID) : Room :=
  { id := id
    canonical_alias := none
    join_rules := none
    members := []
    pending_events := [] }

/-- Sender identity string `format!("{}!{}@{}", nick, nick, homeserver)`. -/
def senderOf (u : UserID) : String :=
  u.nickname ++ "!" ++ u.nickname ++ "@" ++ u.homeserver

/-- `Room::handle_with_alias`.  With a canonical alias set, translates the
event into IRC messages (the callback becomes the returned list); with no
alias set, pushes the event onto `pending_events`.  The `CanonicalAlias`
arm is `unreachable!` in the source. -/
def Room.handle_with_alias (r : Room) (evt : RoomEvent) :
    Except Panic (Room × List Message) :=
  match r.canonical_alias with
  | some a =>
    match evt with
    | .Membership user .Join =>
      .ok ({ r with members := r.members ++ [user] },
        [{ pfx := some (senderOf user), command := .Join, args := [a],
           sfx := none }])
    | .Membership user .Leave =>
      .ok ({ r with members := r.members ++ [user] },
        [{ pfx := some (senderOf user), command := .Part, args := [a],
           sfx := none }])
    | .Membership _ _ => .ok (r, [])
    | .Message user text =>
      .ok (r,
        [{ pfx := some (senderOf user), command := .Privmsg, args := [a],
           sfx := some text }])
    | .Topic user topic =>
      .ok (r,
        [{ pfx := some (senderOf user), command := .Topic, args := [a],
           sfx := some topic }])
    | .CanonicalAlias _ => .error .unreachableAlias
    | _ => .ok (r, [])
  | none =>
    .ok ({ r with pending_events := r.pending_events ++ [evt] }, [])

/-- The loop body of `Room::run_pending`: `pending_events.pop()` removes
the MOST RECENTLY pushed event (end of the `Vec`), so the buffer drains in
LIFO order.  The `while let` loop is run on fuel; `loopFuel` marks the
(never reached in the call sites) case of the loop outliving its fuel. -/
def Room.run_pending_fuel : Nat → Room → Except Panic (Room × List Message)
  | 0, r => if r.pending_events.isEmpty then .ok (r, []) else .error .loopFuel
  | n + 1, r =>
    match r.pending_events.getLast? with
    | none => .ok (r, [])
    | some evt =>
      let r1 := { r with pending_events := r.pending_events.dropLast }
      match r1.handle_with_alias evt with
      | .error e => .error e
      | .ok (r2, msgs) =>
        match Room.run_pending_fuel n r2 with
        | .error e => .error e
        | .ok (r3, rest) => .ok (r3, msgs ++ rest)

/-- `Room::run_pending`, entered with fuel equal to the buffer length
(which is exactly the number of iterations whenever the alias is set, as
translation then never touches `pending_events`). -/
def Room.run_pending (r : Room) : Except Panic (Room × List Message) :=
  Room.run_pending_fuel r.pending_events.length r

/-- `Room::handle_event`: the top-level per-room dispatch.  `Aliases`
indexes `aliases[0]` unguarded (panics on an empty list). -/
def Room.handle_event (r : Room) (evt : RoomEvent) :
    Except Panic (Room × List Message) :=
  match evt with
  | .CanonicalAlias name =>
    let was_empty := r.canonical_alias = none
    let r1 := { r with canonical_alias := some name }
    if was_empty then r1.run_pending else .ok (r1, [])
  | .JoinRules rules => .ok ({ r with join_rules := some rules }, [])
  | .Create => .ok (r, [])
  | .Aliases aliases =>
    if r.canonical_alias = none then
      match aliases with
      | [] => .error .indexEmpty
      | a :: _ =>
        let r1 := { r with canonical_alias := some a }
        r1.run_pending
    else .ok (r, [])
  | .PowerLevels => .ok (r, [])
  | .HistoryVisibility _ => .ok (r, [])
  | .Name _ _ => .ok (r, [])
  | .Avatar _ _ => .ok (r, [])
  | .Unknown _ _ => .ok (r, [])
  | _ => r.handle_with_alias evt

/-- `matrix::events::EventData`: the payload cases `bridge.rs` matches on
(`Room`, `Typing`, and the logged-only catch-all with its type string). -/
inductive EventData where
  | Room (room_id : RoomID) (event : RoomEvent)
  | Typing (raw : String)
  | Other (type_str : String)
deriving DecidableEq, Repr

/-- `matrix::events::Event`: an optional identifier plus a payload. -/
structure Event where
  id : Option EventID
  data : EventData
deriving DecidableEq, Repr

/-- The mutable bridge state touched by the embedded handlers: the room
registry and dedup log of the `Bridge` struct, plus the fields of the
`matrix`/`client` collaborators that `handle_client` reads and writes
(`matrix.uid`, the client nickname, and the accumulating auth pair). -/
structure Bridge where
  rooms : List (RoomID × Room)
  seen_events : List EventID
  uid : Option UserID
  nickname : Option String
  auth_username : Option String
  auth_password : Option String
deriving DecidableEq, Repr

/-- Registry lookup by `RoomID` (the `HashMap` read). -/
def Bridge.lookupRoom (b : Bridge) (id : RoomID) : Option Room :=
  (b.rooms.find? (fun p => p.1 == id)).map Prod.snd

/-- `Bridge::room_from_matrix`: find-or-create by `RoomID`; a fresh
`Room::new` is inserted when the id is unseen. -/
def Bridge.room_from_matrix (b : Bridge) (id : RoomID) : Bridge × Room :=
  match b.lookupRoom id with
  | some r => (b, r)
  | none =>
    let r := Room.new id
    ({ b with rooms := b.rooms ++ [(id, r)] }, r)

/-- Write back the state of the room the handler mutated through `&mut`. -/
def Bridge.setRoom (b : Bridge) (id : RoomID) (r : Room) : Bridge :=
  { b with rooms := b.rooms.map (fun p => if p.1 == id then (id, r) else p) }

/-- `Bridge::room_from_irc`: linear scan of the registry for a room whose
`canonical_alias` equals the IRC channel name (the source loop keeps
overwriting `room_id`, so the last match in iteration order wins), then
its `RoomID`. -/
def Bridge.room_from_irc_id (b : Bridge) (name : String) : Option RoomID :=
  b.rooms.foldl
    (fun acc p =>
      match p.2.canonical_alias with
      | some a => if a == name then some p.2.id else acc
      | none => acc)
    none

/-- The `match evt.id { Some(id) => seen_events.push(id), None => () }`
step of `Bridge::handle_matrix`. -/
def Bridge.record_id (b : Bridge) (id? : Option EventID) : Bridge :=
  match id? with
  | some id => { b with seen_events := b.seen_events ++ [id] }
  | none => b

/-- The duplicate test of `Bridge::handle_matrix`: an event with an id is
a duplicate iff the id is in `seen_events`; an id-less event never is. -/
def Bridge.is_duplicate (b : Bridge) (evt : Event) : Bool :=
  match evt.id with
  | some id => b.seen_events.contains id
  | none => false

/-- The non-duplicate body of `Bridge::handle_matrix`: dispatch the
payload (room events go to the owning room's handler, `Typing` and
unknown payloads produce nothing), record the id, return the collected
outbound messages. -/
def Bridge.handle_fresh (b : Bridge) (evt : Event) :
    Except Panic (Bridge × List Message) :=
  match evt.data with
  | .Room room_id room_event =>
    let br := b.room_from_matrix room_id
    match br.2.handle_event room_event with
    | .error e => .error e
    | .ok (room2, msgs) =>
      .ok (((br.1.setRoom room_id room2).record_id evt.id), msgs)
  | .Typing _ => .ok (b.record_id evt.id, [])
  | .Other _ => .ok (b.record_id evt.id, [])

/-- `Bridge::handle_matrix`: drop duplicates, otherwise handle and record.
The outbound messages the source writes to the client socket are returned
as a list (socket I/O errors are outside the model). -/
def Bridge.handle_matrix (b : Bridge) (evt : Event) :
    Except Panic (Bridge × List Message) :=
  if b.is_duplicate evt then .ok (b, []) else b.handle_fresh evt

/-- Sequential delivery of remote events to `handle_matrix`, the way the
reactor's notification queue feeds them: one at a time, each fully
processed before the next. -/
def Bridge.deliver_all : Bridge → List Event → Except Panic (Bridge × List Message)
  | b, [] => .ok (b, [])
  | b, evt :: rest =>
    match b.handle_matrix evt with
    | .error e => .error e
    | .ok (b1, msgs) =>
      match b1.deliver_all rest with
      | .error e => .error e
      | .ok (b2, more) => .ok (b2, msgs ++ more)

/-- Observable actions of `Bridge::handle_client`: remote-service calls
and writes to the client connection, in the order the loop performs
them. -/
inductive Action where
  | Login (username password : String)
  | ClientOut (m : Message)
  | StartPoll
  | Welcome (username : String)
  | JoinChan (chan : String)
  | Pong
  | RemoteSend (data : EventData)
deriving DecidableEq, Repr

/-- Oracle for the remote-service collaborator.  `login_sync u p` covers
`matrix.login` followed by `matrix.sync` (`none` = either step failed,
which the source escalates through `.expect`); `send d` covers
`matrix.send` (`none` = failure, also hit by `.expect`). -/
structure Remote where
  login_sync : String → String → Option (List Event)
  send : EventData → Option EventID

/-- `Bridge::handle_client`: the read loop over the client connection,
embedded as recursion over the list of readable messages (reading `None`
ends the loop).  Per command, faithful to the source arms: `Pass` and
`User` store credentials (`User` consumes the pair and performs
login + initial sync + poll start + welcome, panicking on failure or on a
missing credential); `Nick` stores the nickname; `Join`/`Ping` act and
continue; `Quit` returns; `Privmsg` resolves the target via
`room_from_irc` — on `None` the whole function returns at once, otherwise
it sends remotely and pushes the returned id straight onto `seen_events`;
unknown commands are logged and skipped.  Unchecked `args[0]` indexing and
`.unwrap()`/`.expect` map to `Panic.unwrapNone`. -/
def Bridge.handle_client (oracle : Remote) :
    Bridge → List Message → Except Panic (Bridge × List Action)
  | b, [] => .ok (b, [])
  | b, msg :: rest =>
    match msg.command with
    | .Pass =>
      match msg.args.head? with
      | none => .error .unwrapNone
      | some p => Bridge.handle_client oracle { b with auth_password := some p } rest
    | .Nick =>
      match msg.sfx with
      | some n => Bridge.handle_client oracle { b with nickname := some n } rest
      | none =>
        match msg.args.head? with
        | none => .error .unwrapNone
        | some a => Bridge.handle_client oracle { b with nickname := some a } rest
    | .User =>
      match msg.args.head? with
      | none => .error .unwrapNone
      | some uname =>
        let b1 := { b with auth_username := some uname }
        match b1.auth_username, b1.auth_password with
        | some u, some p =>
          let b2 := { b1 with auth_username := none, auth_password := none }
          match oracle.login_sync u.trim p.trim with
          | none => .error .unwrapNone
          | some events =>
            match b2.deliver_all events with
            | .error e => .error e
            | .ok (b3, outs) =>
              match Bridge.handle_client oracle b3 rest with
              | .error e => .error e
              | .ok (b4, acts) =>
                .ok (b4, .Login u.trim p.trim ::
                  (outs.map Action.ClientOut ++
                    [.StartPoll, .Welcome u.trim] ++ acts))
        | _, _ => .error .unwrapNone
    | .Join =>
      match msg.args.head? with
      | none => .error .unwrapNone
      | some chan =>
        match Bridge.handle_client oracle b rest with
        | .error e => .error e
        | .ok (b1, acts) => .ok (b1, .JoinChan chan :: acts)
    | .Ping =>
      match Bridge.handle_client oracle b rest with
      | .error e => .error e
      | .ok (b1, acts) => .ok (b1, .Pong :: acts)
    | .Quit => .ok (b, [])
    | .Privmsg =>
      match msg.args.head? with
      | none => .error .unwrapNone
      | some target =>
        match b.room_from_irc_id target with
        | none => .ok (b, [])
        | some rid =>
          match b.uid with
          | none => .error .unwrapNone
          | some u =>
            match msg.sfx with
            | none => .error .unwrapNone
            | some text =>
              let d := EventData.Room rid (RoomEvent.Message u text)
              match oracle.send d with
              | none => .error .unwrapNone
              | some eid =>
                match Bridge.handle_client oracle
                    { b with seen_events := b.seen_events ++ [eid] } rest with
                | .error e => .error e
                | .ok (b1, acts) => .ok (b1, .RemoteSend d :: acts)
    | _ => Bridge.handle_client oracle b rest

/-- The room-scoped event kinds (membership, message, topic): the ones
`Room::handle_event` forwards to `Room::handle_with_alias`. -/
def RoomEvent.roomScoped : RoomEvent → Bool
  | .Membership _ _ => true
  | .Message _ _ => true
  | .Topic _ _ => true
  | _ => false

/-- Whether an event is the `CanonicalAlias` variant (the one whose
`handle_with_alias` arm is `unreachable!`). -/
def RoomEvent.isCanonical : RoomEvent → Bool
  | .CanonicalAlias _ => true
  | _ => false

/-- The replay invariant: the pending buffer holds no `CanonicalAlias`
event (so draining it can never reach the `unreachable!` arm). -/
def Room.goodPending (r : Room) : Bool :=
  r.pending_events.all (fun e => !e.isCanonical)

/-- C1: an Unresolved room buffers Join(alice) then Join(bob); the
`CanonicalAlias` that then resolves the room drains the buffer by
`Vec::pop`, so the code emits bob's Join BEFORE alice's — reverse (LIFO)
of the claimed FIFO arrival order. -/
theorem pending_replay_is_lifo_not_fifo :
    (Room.new "!r").handle_event (.Membership ⟨"alice", "hs"⟩ .Join)
      = .ok (⟨"!r", none, none, [], [.Membership ⟨"alice", "hs"⟩ .Join]⟩, []) ∧
    Room.handle_event ⟨"!r", none, none, [], [.Membership ⟨"alice", "hs"⟩ .Join]⟩
        (.Membership ⟨"bob", "hs"⟩ .Join)
      = .ok (⟨"!r", none, none, [],
          [.Membership ⟨"alice", "hs"⟩ .Join, .Membership ⟨"bob", "hs"⟩ .Join]⟩, []) ∧
    Room.handle_event ⟨"!r", none, none, [],
        [.Membership ⟨"alice", "hs"⟩ .Join, .Membership ⟨"bob", "hs"⟩ .Join]⟩
        (.CanonicalAlias "#general")
      = .ok (⟨"!r", some "#general", none, [⟨"bob", "hs"⟩, ⟨"alice", "hs"⟩], []⟩,
          [⟨some "bob!bob@hs", .Join, ["#general"], none⟩,
           ⟨some "alice!alice@hs", .Join, ["#general"], none⟩]) :=
  ⟨rfl, rfl, rfl⟩

/-- C3: while `canonical_alias` is unset, every membership, message or
topic event produces no outbound message and is appended to
`pending_events`. -/
theorem unresolved_room_buffers (r : Room) (evt : RoomEvent)
    (hU : r.canonical_alias = none) (hS : evt.roomScoped = true) :
    r.handle_event evt
      = .ok ({ r with pending_events := r.pending_events ++ [evt] }, []) := by
  cases evt <;>
    simp_all [RoomEvent.roomScoped, Room.handle_event, Room.handle_with_alias]

/-- Witness for `unresolved_room_buffers` at a concrete room and event. -/
theorem unresolved_room_buffers_witness :
    Room.handle_event ⟨"!r", none, none, [], []⟩
        (.Message ⟨"alice", "hs"⟩ "hi")
      = .ok (⟨"!r", none, none, [], [.Message ⟨"alice", "hs"⟩ "hi"]⟩, []) :=
  unresolved_room_buffers ⟨"!r", none, none, [], []⟩
    (.Message ⟨"alice", "hs"⟩ "hi") rfl rfl

/-- C4: in a Resolved room, a Join/Leave membership event yields exactly
one Join/Part message, a Message/Topic event exactly one Privmsg/Topic
message carrying the text/topic as body; every message is addressed to
the canonical name and prefixed `"<nick>!<nick>@<homeserver>"`. -/
theorem resolved_room_translates (r : Room) (a : String) (u : UserID)
    (text topic : String) (hR : r.canonical_alias = some a) :
    r.handle_event (.Membership u .Join)
      = .ok ({ r with members := r.members ++ [u] },
          [⟨some (u.nickname ++ "!" ++ u.nickname ++ "@" ++ u.homeserver),
            .Join, [a], none⟩]) ∧
    r.handle_event (.Membership u .Leave)
      = .ok ({ r with members := r.members ++ [u] },
          [⟨some (u.nickname ++ "!" ++ u.nickname ++ "@" ++ u.homeserver),
            .Part, [a], none⟩]) ∧
    r.handle_event (.Message u text)
      = .ok (r,
          [⟨some (u.nickname ++ "!" ++ u.nickname ++ "@" ++ u.homeserver),
            .Privmsg, [a], some text⟩]) ∧
    r.handle_event (.Topic u topic)
      = .ok (r,
          [⟨some (u.nickname ++ "!" ++ u.nickname ++ "@" ++ u.homeserver),
            .Topic, [a], some topic⟩]) := by
  refine ⟨?_, ?_, ?_, ?_⟩ <;>
    simp [Room.handle_event, Room.handle_with_alias, hR, senderOf]

/-- Witness for `resolved_room_translates` at a concrete resolved room. -/
theorem resolved_room_translates_witness :
    Room.handle_event ⟨"!r", some "#c", none, [], []⟩
        (.Message ⟨"alice", "hs"⟩ "hi")
      = .ok (⟨"!r", some "#c", none, [], []⟩,
          [⟨some ("alice" ++ "!" ++ "alice" ++ "@" ++ "hs"),
            .Privmsg, ["#c"], some "hi"⟩]) :=
  (resolved_room_translates ⟨"!r", some "#c", none, [], []⟩ "#c"
    ⟨"alice", "hs"⟩ "hi" "t" rfl).2.2.1

/-- C6: in a Resolved room, a Leave emits a Part message and APPENDS the
leaving user to `members` (no removal), mirroring the Join arm. -/
theorem leave_appends_member (r : Room) (a : String) (u : UserID)
    (hR : r.canonical_alias = some a) :
    r.handle_event (.Membership u .Leave)
      = .ok ({ r with members := r.members ++ [u] },
          [⟨some (u.nickname ++ "!" ++ u.nickname ++ "@" ++ u.homeserver),
            .Part, [a], none⟩]) := by
  simp [Room.handle_event, Room.handle_with_alias, hR, senderOf]

/-- Witness for `leave_appends_member`: alice leaves, yet ends up in
`members`. -/
theorem leave_appends_member_witness :
    Room.handle_event ⟨"!r", some "#c", none, [⟨"bob", "hs"⟩], []⟩
        (.Membership ⟨"alice", "hs"⟩ .Leave)
      = .ok (⟨"!r", some "#c", none, [⟨"bob", "hs"⟩, ⟨"alice", "hs"⟩], []⟩,
          [⟨some ("alice" ++ "!" ++ "alice" ++ "@" ++ "hs"),
            .Part, ["#c"], none⟩]) :=
  leave_appends_member ⟨"!r", some "#c", none, [⟨"bob", "hs"⟩], []⟩ "#c"
    ⟨"alice", "hs"⟩ rfl

/-- C8: on an Unresolved room, an `Aliases` event with an empty alias
list panics (`aliases[0]` is indexed unguarded). -/
theorem empty_aliases_panics (r : Room) (hU : r.canonical_alias = none) :
    r.handle_event (.Aliases []) = .error .indexEmpty := by
  simp [Room.handle_event, hU]

/-- Witness for `empty_aliases_panics` on a fresh room. -/
theorem empty_aliases_panics_witness :
    (Room.new "!r").handle_event (.Aliases []) = .error .indexEmpty :=
  empty_aliases_panics (Room.new "!r") rfl

/-- `room_from_matrix` never touches the dedup log. -/
theorem room_from_matrix_seen (b : Bridge) (id : RoomID) :
    (b.room_from_matrix id).1.seen_events = b.seen_events := by
  unfold Bridge.room_from_matrix
  cases b.lookupRoom id <;> rfl

/-- An event whose id is already in `seen_events` is classified as a
duplicate: `handle_matrix` returns no messages and leaves the bridge
untouched. -/
theorem handle_matrix_of_seen (b : Bridge) (evt : Event) (e : EventID)
    (hid : evt.id = some e) (hmem : e ∈ b.seen_events) :
    b.handle_matrix evt = .ok (b, []) := by
  have hd : b.is_duplicate evt = true := by
    simp [Bridge.is_duplicate, hid, hmem]
  simp [Bridge.handle_matrix, hd]

/-- A successfully handled event with an id ends up in `seen_events`. -/
theorem handle_matrix_mem_seen (b b1 : Bridge) (evt : Event) (e : EventID)
    (m1 : List Message) (hid : evt.id = some e)
    (h : b.handle_matrix evt = .ok (b1, m1)) : e ∈ b1.seen_events := by
  obtain ⟨id?, data⟩ := evt
  simp only at hid
  subst hid
  unfold Bridge.handle_matrix at h
  split at h
  case isTrue hd =>
    simp only [Except.ok.injEq, Prod.mk.injEq] at h
    obtain ⟨rfl, rfl⟩ := h
    simpa [Bridge.is_duplicate] using hd
  case isFalse hd =>
    cases data with
    | Room rid rev =>
      simp only [Bridge.handle_fresh] at h
      split at h
      · exact absurd h (by simp)
      · simp only [Except.ok.injEq, Prod.mk.injEq] at h
        obtain ⟨rfl, rfl⟩ := h
        simp [Bridge.record_id, Bridge.setRoom]
    | Typing raw =>
      simp only [Bridge.handle_fresh, Except.ok.injEq, Prod.mk.injEq] at h
      obtain ⟨rfl, rfl⟩ := h
      simp [Bridge.record_id]
    | Other ty =>
      simp only [Bridge.handle_fresh, Except.ok.injEq, Prod.mk.injEq] at h
      obtain ⟨rfl, rfl⟩ := h
      simp [Bridge.record_id]

/-- C2: for a fixed EventID `e`, once the first delivery of an event
carrying `e` has been handled, every further delivery of events carrying
`e` produces no messages and leaves the bridge state exactly as it was
after the first delivery. -/
theorem dedup_at_most_once (b : Bridge) (e : EventID) (evt : Event)
    (rest : List Event) (b1 : Bridge) (m1 : List Message)
    (hid : evt.id = some e) (hall : ∀ x ∈ rest, x.id = some e)
    (h1 : b.handle_matrix evt = .ok (b1, m1)) :
    b.deliver_all (evt :: rest) = .ok (b1, m1) := by
  have he1 : e ∈ b1.seen_events := handle_matrix_mem_seen b b1 evt e m1 hid h1
  have hrest : ∀ l : List Event, (∀ x ∈ l, x.id = some e) →
      Bridge.deliver_all b1 l = .ok (b1, []) := by
    intro l
    induction l with
    | nil => intro _; rfl
    | cons x xs ih =>
      intro hl
      have hx := handle_matrix_of_seen b1 x e (hl x (List.mem_cons_self x xs)) he1
      have hxs := ih (fun y hy => hl y (List.mem_cons_of_mem x hy))
      simp [Bridge.deliver_all, hx, hxs]
  simp [Bridge.deliver_all, h1, hrest rest hall]

/-- Witness for `dedup_at_most_once`: the same identified event delivered
twice; only the first delivery records the id, the second changes
nothing. -/
theorem dedup_at_most_once_witness :
    Bridge.deliver_all ⟨[], [], none, none, none, none⟩
        [⟨some "$e", .Typing "t"⟩, ⟨some "$e", .Typing "t"⟩]
      = .ok (⟨[], ["$e"], none, none, none, none⟩, []) :=
  dedup_at_most_once ⟨[], [], none, none, none, none⟩ "$e"
    ⟨some "$e", .Typing "t"⟩ [⟨some "$e", .Typing "t"⟩]
    ⟨[], ["$e"], none, none, none, none⟩ [] rfl (by decide) rfl

/-- C7: an event with no id bypasses the duplicate check entirely
(`handle_matrix` behaves as the fresh-event path on every delivery) and
never records anything into `seen_events`. -/
theorem no_id_bypasses_dedup (b : Bridge) (evt : Event)
    (h : evt.id = none) :
    b.handle_matrix evt = b.handle_fresh evt ∧
    ∀ b1 msgs, b.handle_matrix evt = .ok (b1, msgs) →
      b1.seen_events = b.seen_events := by
  have hfresh : b.handle_matrix evt = b.handle_fresh evt := by
    simp [Bridge.handle_matrix, Bridge.is_duplicate, h]
  refine ⟨hfresh, ?_⟩
  intro b1 msgs hok
  rw [hfresh] at hok
  obtain ⟨id?, data⟩ := evt
  simp only at h
  subst h
  cases data with
  | Room rid rev =>
    simp only [Bridge.handle_fresh] at hok
    split at hok
    · exact absurd hok (by simp)
    · simp only [Except.ok.injEq, Prod.mk.injEq] at hok
      obtain ⟨rfl, rfl⟩ := hok
      simp [Bridge.record_id, Bridge.setRoom, room_from_matrix_seen]
  | Typing raw =>
    simp only [Bridge.handle_fresh, Except.ok.injEq, Prod.mk.injEq] at hok
    obtain ⟨rfl, rfl⟩ := hok
    simp [Bridge.record_id]
  | Other ty =>
    simp only [Bridge.handle_fresh, Except.ok.injEq, Prod.mk.injEq] at hok
    obtain ⟨rfl, rfl⟩ := hok
    simp [Bridge.record_id]

/-- Witness for `no_id_bypasses_dedup` on a concrete id-less event. -/
theorem no_id_bypasses_dedup_witness :
    Bridge.handle_matrix ⟨[], ["$x"], none, none, none, none⟩
        ⟨none, .Typing "t"⟩
      = Bridge.handle_fresh ⟨[], ["$x"], none, none, none, none⟩
          ⟨none, .Typing "t"⟩ ∧
    (⟨[], ["$x"], none, none, none, none⟩ : Bridge).seen_events = ["$x"] :=
  ⟨(no_id_bypasses_dedup ⟨[], ["$x"], none, none, none, none⟩
      ⟨none, .Typing "t"⟩ rfl).1,
   (no_id_bypasses_dedup ⟨[], ["$x"], none, none, none, none⟩
      ⟨none, .Typing "t"⟩ rfl).2 ⟨[], ["$x"], none, none, none, none⟩ [] rfl⟩

/-- C5: a Privmsg whose target matches no room's canonical alias is
silently dropped (no remote send, no client output, no panic, state
untouched); a matching target issues the remote send and pushes the
returned EventID straight onto `seen_events`. -/
theorem privmsg_drop_or_send (oracle : Remote) (b : Bridge) (m : Message)
    (target : String) (hcmd : m.command = .Privmsg)
    (hargs : m.args.head? = some target) :
    (b.room_from_irc_id target = none →
      Bridge.handle_client oracle b [m] = .ok (b, [])) ∧
    (∀ rid u text eid, b.room_from_irc_id target = some rid →
      b.uid = some u → m.sfx = some text →
      oracle.send (EventData.Room rid (RoomEvent.Message u text)) = some eid →
      Bridge.handle_client oracle b [m]
        = .ok ({ b with seen_events := b.seen_events ++ [eid] },
            [.RemoteSend (EventData.Room rid (RoomEvent.Message u text))])) := by
  constructor
  · intro hnone
    simp [Bridge.handle_client, hcmd, hargs, hnone]
  · intro rid u text eid hsome huid hsfx hsend
    simp [Bridge.handle_client, hcmd, hargs, hsome, huid, hsfx, hsend]

/-- Witness for `privmsg_drop_or_send`: one unresolvable target dropped,
one resolvable target sent and recorded. -/
theorem privmsg_drop_or_send_witness :
    Bridge.handle_client ⟨fun _ _ => none, fun _ => some "$sent"⟩
        ⟨[("!r", ⟨"!r", some "#c", none, [], []⟩)], [],
          some ⟨"alice", "hs"⟩, none, none, none⟩
        [⟨none, .Privmsg, ["#nope"], some "yo"⟩]
      = .ok (⟨[("!r", ⟨"!r", some "#c", none, [], []⟩)], [],
          some ⟨"alice", "hs"⟩, none, none, none⟩, []) ∧
    Bridge.handle_client ⟨fun _ _ => none, fun _ => some "$sent"⟩
        ⟨[("!r", ⟨"!r", some "#c", none, [], []⟩)], [],
          some ⟨"alice", "hs"⟩, none, none, none⟩
        [⟨none, .Privmsg, ["#c"], some "yo"⟩]
      = .ok (⟨[("!r", ⟨"!r", some "#c", none, [], []⟩)], ["$sent"],
          some ⟨"alice", "hs"⟩, none, none, none⟩,
          [.RemoteSend (.Room "!r" (.Message ⟨"alice", "hs"⟩ "yo"))]) :=
  ⟨(privmsg_drop_or_send ⟨fun _ _ => none, fun _ => some "$sent"⟩
      ⟨[("!r", ⟨"!r", some "#c", none, [], []⟩)], [],
        some ⟨"alice", "hs"⟩, none, none, none⟩
      ⟨none, .Privmsg, ["#nope"], some "yo"⟩ "#nope" rfl rfl).1 rfl,
   (privmsg_drop_or_send ⟨fun _ _ => none, fun _ => some "$sent"⟩
      ⟨[("!r", ⟨"!r", some "#c", none, [], []⟩)], [],
        some ⟨"alice", "hs"⟩, none, none, none⟩
      ⟨none, .Privmsg, ["#c"], some "yo"⟩ "#c" rfl rfl).2
    "!r" ⟨"alice", "hs"⟩ "yo" "$sent" rfl rfl rfl rfl⟩

/-- C10: when a Privmsg target resolves to no room, `handle_client`
returns from the whole invocation at once: whatever messages are still
readable after it are not dispatched (the drop is not local to the one
command). -/
theorem privmsg_unresolved_aborts_batch (oracle : Remote) (b : Bridge)
    (m : Message) (target : String) (rest : List Message)
    (hcmd : m.command = .Privmsg) (hargs : m.args.head? = some target)
    (hnone : b.room_from_irc_id target = none) :
    Bridge.handle_client oracle b (m :: rest) = .ok (b, []) := by
  simp [Bridge.handle_client, hcmd, hargs, hnone]

/-- Witness for `privmsg_unresolved_aborts_batch`: a Ping queued behind
the dropped Privmsg is never answered. -/
theorem privmsg_unresolved_aborts_batch_witness :
    Bridge.handle_client ⟨fun _ _ => none, fun _ => some "$sent"⟩
        ⟨[], [], none, none, none, none⟩
        [⟨none, .Privmsg, ["#nope"], some "yo"⟩, ⟨none, .Ping, [], none⟩]
      = .ok (⟨[], [], none, none, none, none⟩, []) :=
  privmsg_unresolved_aborts_batch ⟨fun _ _ => none, fun _ => some "$sent"⟩
    ⟨[], [], none, none, none, none⟩
    ⟨none, .Privmsg, ["#nope"], some "yo"⟩ "#nope"
    [⟨none, .Ping, [], none⟩] rfl rfl rfl

/-- On any event other than `CanonicalAlias`, the with-alias translator
cannot hit its `unreachable!` arm. -/
theorem handle_with_alias_no_unreachable (r : Room) (evt : RoomEvent)
    (hevt : evt.isCanonical = false) :
    r.handle_with_alias evt ≠ .error .unreachableAlias := by
  cases hr : r.canonical_alias
  case none => simp [Room.handle_with_alias, hr]
  case some a =>
    cases evt
    case Membership u act =>
      cases act <;> simp [Room.handle_with_alias, hr]
    case CanonicalAlias n => simp [RoomEvent.isCanonical] at hevt
    all_goals simp [Room.handle_with_alias, hr]

/-- The with-alias translator leaves the pending buffer alone or appends
exactly the event it was given. -/
theorem handle_with_alias_pending (r : Room) (evt : RoomEvent) (r' : Room)
    (msgs : List Message) (h : r.handle_with_alias evt = .ok (r', msgs)) :
    r'.pending_events = r.pending_events ∨
    r'.pending_events = r.pending_events ++ [evt] := by
  cases hr : r.canonical_alias
  case none =>
    simp only [Room.handle_with_alias, hr, Except.ok.injEq, Prod.mk.injEq] at h
    obtain ⟨rfl, rfl⟩ := h
    right
    rfl
  case some a =>
    left
    cases evt
    case Membership u act =>
      cases act <;>
        simp only [Room.handle_with_alias, hr, Except.ok.injEq,
          Prod.mk.injEq] at h <;>
      · obtain ⟨rfl, rfl⟩ := h
        rfl
    case CanonicalAlias n =>
      simp [Room.handle_with_alias, hr] at h
    all_goals
      simp only [Room.handle_with_alias, hr, Except.ok.injEq,
        Prod.mk.injEq] at h
    all_goals
      obtain ⟨rfl, rfl⟩ := h
      rfl

/-- The with-alias translator preserves the replay invariant for
non-`CanonicalAlias` events. -/
theorem handle_with_alias_good (r : Room) (evt : RoomEvent) (r' : Room)
    (msgs : List Message) (hg : r.goodPending = true)
    (hevt : evt.isCanonical = false)
    (h : r.handle_with_alias evt = .ok (r', msgs)) :
    r'.goodPending = true := by
  rcases handle_with_alias_pending r evt r' msgs h with hp | hp <;>
    unfold Room.goodPending at hg ⊢ <;> rw [hp]
  · exact hg
  · simp [List.all_append, hg, hevt]

/-- Draining the pending buffer of a room satisfying the replay
invariant never reaches the `unreachable!` arm, and preserves the
invariant. -/
theorem run_pending_fuel_safe (n : Nat) :
    ∀ r : Room, r.goodPending = true →
      Room.run_pending_fuel n r ≠ .error .unreachableAlias ∧
      (∀ r' m, Room.run_pending_fuel n r = .ok (r', m) →
        r'.goodPending = true) := by
  induction n with
  | zero =>
    intro r hg
    constructor
    · unfold Room.run_pending_fuel
      split <;> simp
    · intro r' m h
      unfold Room.run_pending_fuel at h
      split at h
      · simp only [Except.ok.injEq, Prod.mk.injEq] at h
        obtain ⟨rfl, rfl⟩ := h
        exact hg
      · exact absurd h (by simp)
  | succ n ih =>
    intro r hg
    cases hL : r.pending_events.getLast? with
    | none =>
      constructor
      · simp [Room.run_pending_fuel, hL]
      · intro r' m h
        simp only [Room.run_pending_fuel, hL, Except.ok.injEq,
          Prod.mk.injEq] at h
        obtain ⟨rfl, rfl⟩ := h
        exact hg
    | some evt =>
      have hevt : evt.isCanonical = false := by
        have hmem : evt ∈ r.pending_events := List.mem_of_mem_getLast? hL
        simpa using (List.all_eq_true.mp hg) evt hmem
      have hg1 : Room.goodPending
          { r with pending_events := r.pending_events.dropLast } = true := by
        unfold Room.goodPending
        rw [List.all_eq_true]
        intro x hx
        exact (List.all_eq_true.mp hg) x (List.dropLast_subset _ hx)
      cases hh : Room.handle_with_alias
          { r with pending_events := r.pending_events.dropLast } evt with
      | error e =>
        have hne : e ≠ .unreachableAlias := fun heq =>
          handle_with_alias_no_unreachable
            { r with pending_events := r.pending_events.dropLast } evt hevt
            (heq ▸ hh)
        constructor
        · simpa [Room.run_pending_fuel, hL, hh] using hne
        · intro r' m h
          simp [Room.run_pending_fuel, hL, hh] at h
      | ok pr =>
        obtain ⟨r2, msgs⟩ := pr
        have hg2 : r2.goodPending = true :=
          handle_with_alias_good
            { r with pending_events := r.pending_events.dropLast } evt r2 msgs
            hg1 hevt hh
        obtain ⟨ih1, ih2⟩ := ih r2 hg2
        cases hrec : Room.run_pending_fuel n r2 with
        | error e =>
          have hne : e ≠ .unreachableAlias := fun heq => ih1 (heq ▸ hrec)
          constructor
          · simpa [Room.run_pending_fuel, hL, hh, hrec] using hne
          · intro r' m h
            simp [Room.run_pending_fuel, hL, hh, hrec] at h
        | ok pr2 =>
          obtain ⟨r3, rest⟩ := pr2
          constructor
          · simp [Room.run_pending_fuel, hL, hh, hrec]
          · intro r' m h
            simp only [Room.run_pending_fuel, hL, hh, Except.ok.injEq,
              Prod.mk.injEq, hrec] at h
            obtain ⟨rfl, rfl⟩ := h
            exact ih2 r3 rest hrec

/-- C9: a room whose pending buffer holds no `CanonicalAlias` event (true
initially, and preserved by every dispatch through `handle_event`, which
intercepts `CanonicalAlias` before the catch-all) can never execute the
`unreachable!` arm of `handle_with_alias`. -/
theorem canonical_unreachable_never_fires (r : Room) (evt : RoomEvent)
    (hg : r.goodPending = true) :
    r.handle_event evt ≠ .error .unreachableAlias ∧
    (∀ r' msgs, r.handle_event evt = .ok (r', msgs) →
      r'.goodPending = true) ∧
    (∀ id, (Room.new id).goodPending = true) := by
  refine ⟨?_, ?_, fun id => rfl⟩
  · cases evt
    case CanonicalAlias name =>
      by_cases hc : r.canonical_alias = none
      · have hg1 : Room.goodPending
            { r with canonical_alias := some name } = true := hg
        simpa [Room.handle_event, hc, Room.run_pending] using
          (run_pending_fuel_safe _ _ hg1).1
      · simp [Room.handle_event, hc]
    case Aliases aliases =>
      by_cases hc : r.canonical_alias = none
      · cases aliases with
        | nil => simp [Room.handle_event, hc]
        | cons a as =>
          have hg1 : Room.goodPending
              { r with canonical_alias := some a } = true := hg
          simpa [Room.handle_event, hc, Room.run_pending] using
            (run_pending_fuel_safe _ _ hg1).1
      · simp [Room.handle_event, hc]
    case Membership u act =>
      exact handle_with_alias_no_unreachable r (.Membership u act) rfl
    case Message u text =>
      exact handle_with_alias_no_unreachable r (.Message u text) rfl
    case Topic u topic =>
      exact handle_with_alias_no_unreachable r (.Topic u topic) rfl
    all_goals simp [Room.handle_event]
  · intro r' msgs h
    cases evt
    case CanonicalAlias name =>
      by_cases hc : r.canonical_alias = none
      · have hg1 : Room.goodPending
            { r with canonical_alias := some name } = true := hg
        simp only [Room.handle_event, hc, if_pos, Room.run_pending] at h
        exact (run_pending_fuel_safe _ _ hg1).2 r' msgs h
      · simp only [Room.handle_event, hc, if_neg, Except.ok.injEq,
          Prod.mk.injEq] at h
        obtain ⟨rfl, rfl⟩ := h
        exact hg
    case Aliases aliases =>
      by_cases hc : r.canonical_alias = none
      · cases aliases with
        | nil => simp [Room.handle_event, hc] at h
        | cons a as =>
          have hg1 : Room.goodPending
              { r with canonical_alias := some a } = true := hg
          simp only [Room.handle_event, hc, if_pos, Room.run_pending] at h
          exact (run_pending_fuel_safe _ _ hg1).2 r' msgs h
      · simp only [Room.handle_event, hc, if_neg, Except.ok.injEq,
          Prod.mk.injEq] at h
        obtain ⟨rfl, rfl⟩ := h
        exact hg
    case Membership u act =>
      exact handle_with_alias_good r (.Membership u act) r' msgs hg rfl h
    case Message u text =>
      exact handle_with_alias_good r (.Message u text) r' msgs hg rfl h
    case Topic u topic =>
      exact handle_with_alias_good r (.Topic u topic) r' msgs hg rfl h
    all_goals
      simp only [Room.handle_event, Except.ok.injEq, Prod.mk.injEq] at h
      obtain ⟨rfl, rfl⟩ := h
      exact hg

/-- Witness for `canonical_unreachable_never_fires`: resolving a room
with a buffered message neither panics nor leaves a `CanonicalAlias` in
the buffer. -/
theorem canonical_unreachable_never_fires_witness :
    Room.handle_event ⟨"!r", none, none, [], [.Message ⟨"alice", "hs"⟩ "hi"]⟩
        (.CanonicalAlias "#c")
      ≠ .error .unreachableAlias ∧
    Room.goodPending ⟨"!r", some "#c", none, [], []⟩ = true :=
  ⟨(canonical_unreachable_never_fires
      ⟨"!r", none, none, [], [.Message ⟨"alice", "hs"⟩ "hi"]⟩
      (.CanonicalAlias "#c") rfl).1,
   (canonical_unreachable_never_fires
      ⟨"!r", none, none, [], [.Message ⟨"alice", "hs"⟩ "hi"]⟩
      (.CanonicalAlias "#c") rfl).2.1 ⟨"!r", some "#c", none, [], []⟩
     [⟨some ("alice" ++ "!" ++ "alice" ++ "@" ++ "hs"),
       .Privmsg, ["#c"], some "hi"⟩] rfl⟩

end Pto
